import Mathlib

/-!
Shallow embedding of `src/lib.rs` of the azure-vault-secrets crate.

The external Azure collaborators (credential discovery, `SecretClient`
construction, and the per-call secret fetch) are modelled by an
environment record `AzureEnv`.  The per-key fetch is indexed by a global
call counter so that successive fetches of the same key may return
different values, which is what makes the last-write-wins behaviour of
duplicate keys observable.  `anyhow` errors are modelled by `VError`:
`.context msg cause` models `err.context(msg)` over an external error
`cause`, `.message msg` models `anyhow!(msg)`.
-/

/-- Model of the external Azure collaborators.
`credResult` is the outcome of `azure_identity::create_credential()`,
`clientResult url` the outcome of `SecretClient::new(url, credential)`,
and `fetchResult n key` the outcome of the `n`-th fetch call issued by
the client (`client.get(key)`), counted from 0. -/
structure AzureEnv where
  credResult : Except String Unit
  clientResult : String → Except String Unit
  fetchResult : Nat → String → Except String String

/-- Model of an `anyhow::Error`: either an external cause wrapped by
`.context(msg)`, or a fresh `anyhow!(msg)` message. -/
inductive VError where
  | context (msg : String) (cause : String)
  | message (msg : String)
deriving DecidableEq

/-- Rendering of a `VError`, matching the alternate display of an
`anyhow` context chain (`"msg: cause"`). -/
def VError.render : VError → String
  | VError.context m c => m ++ ": " ++ c
  | VError.message m => m

/-- A single-quote character as a string (the `'` in the Rust format
string `Required key '{}' not found`). -/
def squote : String := String.mk [Char.ofNat 39]

/-- Embedding of `get_secret`: one fetch call (the `n`-th overall),
wrapping any client error with the context `Unable to retrieve value`. -/
def get_secret (env : AzureEnv) (n : Nat) (key : String) : Except VError String :=
  match env.fetchResult n key with
  | Except.error e => Except.error (VError.context "Unable to retrieve value" e)
  | Except.ok v => Except.ok v

/-- Model of `HashMap::insert`: replace the value of an existing key,
otherwise add a new entry. -/
def insertKV : List (String × String) → String → String → List (String × String)
  | [], k, v => [(k, v)]
  | (k0, v0) :: rest, k, v =>
    if k0 = k then (k, v) :: rest else (k0, v0) :: insertKV rest k v

/-- Model of `HashMap::get`. -/
def lookupKV : List (String × String) → String → Option String
  | [], _ => none
  | (k0, v0) :: rest, k => if k0 = k then some v0 else lookupKV rest k

/-- Embedding of the `for key in keys_iter` loop of `Vault::new`:
fetch each key in order, threading the global call counter `n` and the
accumulated map `acc`; stop at the first failing fetch.  The second
component is the trace of keys for which a fetch call was issued, in
issue order (the failing key included). -/
def fetchLoop (env : AzureEnv) :
    List String → Nat → List (String × String) →
    Except VError (List (String × String)) × List String
  | [], _, acc => (Except.ok acc, [])
  | k :: rest, n, acc =>
    match get_secret env n k with
    | Except.error e => (Except.error e, [k])
    | Except.ok v =>
      let r := fetchLoop env rest (n + 1) (insertKV acc k v)
      (r.1, k :: r.2)

/-- The `Vault` struct: its `secrets: HashMap<String, String>` field. -/
structure Vault where
  secrets : List (String × String)
deriving DecidableEq

/-- Embedding of `Vault::new`: create credentials (context
`Failed to create credentials`), build the client (context
`Failed to create a SecretClient instance`), then fetch every key of
`db_keys` in order, aborting on the first failure. -/
def Vault.new (env : AzureEnv) (url : String) (db_keys : List String) :
    Except VError Vault :=
  match env.credResult with
  | Except.error e => Except.error (VError.context "Failed to create credentials" e)
  | Except.ok _ =>
    match env.clientResult url with
    | Except.error e =>
      Except.error (VError.context "Failed to create a SecretClient instance" e)
    | Except.ok _ =>
      match (fetchLoop env db_keys 0 []).1 with
      | Except.error e => Except.error e
      | Except.ok m => Except.ok (Vault.mk m)

/-- The trace of fetch calls issued during `Vault::new`, in issue order. -/
def Vault.newTrace (env : AzureEnv) (url : String) (db_keys : List String) :
    List String :=
  match env.credResult with
  | Except.error _ => []
  | Except.ok _ =>
    match env.clientResult url with
    | Except.error _ => []
    | Except.ok _ => (fetchLoop env db_keys 0 []).2

/-- The message of the `anyhow!("Required key '{}' not found", key)`
error of `get_required`. -/
def missingKeyMsg (key : String) : String :=
  "Required key " ++ squote ++ key ++ squote ++ " not found"

/-- Embedding of `VaultStorage::get_required` for `Vault`. -/
def get_required (v : Vault) (key : String) : Except VError String :=
  match lookupKV v.secrets key with
  | some s => Except.ok s
  | none => Except.error (VError.message (missingKeyMsg key))

/-- State-passing embedding of the `&self` method `get_required`: a
shared-reference method returns the result together with the (by
construction unchanged) receiver. -/
def get_requiredS (v : Vault) (key : String) : Except VError String × Vault :=
  (get_required v key, v)

/-- Running a sequence of `get_required` calls against a store,
threading the receiver state. -/
def runLookups (v : Vault) : List String → Vault
  | [] => v
  | k :: rest => runLookups (get_requiredS v k).2 rest

/-- `i` is the position of the last occurrence of `k` in `keys`. -/
def IsLastOcc (keys : List String) (k : String) (i : Nat) : Prop :=
  i < keys.length ∧ keys.getD i "" = k ∧
    ∀ j, i < j → j < keys.length → keys.getD j "" ≠ k

/-- `listContains sub l` decides whether `sub` occurs contiguously
inside `l`. -/
def listContains (sub : List Char) : List Char → Bool
  | [] => sub.isEmpty
  | c :: rest => sub.isPrefixOf (c :: rest) || listContains sub rest

/-! ### Map lemmas -/

lemma lookupKV_insertKV_self (m : List (String × String)) (k v : String) :
    lookupKV (insertKV m k v) k = some v := by
  induction m with
  | nil => simp [insertKV, lookupKV]
  | cons p rest ih =>
    obtain ⟨k0, v0⟩ := p
    by_cases h : k0 = k
    · simp [insertKV, h, lookupKV]
    · simp [insertKV, h, lookupKV, ih]

lemma lookupKV_insertKV_ne (m : List (String × String)) (k v k' : String)
    (h : k' ≠ k) : lookupKV (insertKV m k v) k' = lookupKV m k' := by
  induction m with
  | nil => simp [insertKV, lookupKV, Ne.symm h]
  | cons p rest ih =>
    obtain ⟨k0, v0⟩ := p
    by_cases h0 : k0 = k
    · subst h0
      simp [insertKV, lookupKV, Ne.symm h]
    · simp only [insertKV, if_neg h0, lookupKV]
      by_cases h1 : k0 = k'
      · simp [h1]
      · simp [h1, ih]

lemma mem_keys_insertKV (m : List (String × String)) (k v k' : String) :
    k' ∈ (insertKV m k v).map Prod.fst ↔ k' = k ∨ k' ∈ m.map Prod.fst := by
  induction m with
  | nil => simp [insertKV]
  | cons p rest ih =>
    obtain ⟨k0, v0⟩ := p
    by_cases h : k0 = k
    · subst h
      simp only [insertKV, List.map_cons, List.mem_cons, if_pos]
      tauto
    · simp only [insertKV, if_neg h, List.map_cons, List.mem_cons, ih]
      tauto

lemma nodup_keys_insertKV (m : List (String × String)) (k v : String)
    (h : (m.map Prod.fst).Nodup) : ((insertKV m k v).map Prod.fst).Nodup := by
  induction m with
  | nil => simp [insertKV]
  | cons p rest ih =>
    obtain ⟨k0, v0⟩ := p
    simp only [List.map_cons, List.nodup_cons] at h
    by_cases h0 : k0 = k
    · subst h0
      simp only [insertKV, List.map_cons, List.nodup_cons, if_pos]
      exact h
    · simp only [insertKV, if_neg h0, List.map_cons, List.nodup_cons]
      refine ⟨?_, ih h.2⟩
      rw [mem_keys_insertKV]
      push_neg
      exact ⟨h0, h.1⟩

lemma lookupKV_eq_none_iff (m : List (String × String)) (k : String) :
    lookupKV m k = none ↔ k ∉ m.map Prod.fst := by
  induction m with
  | nil => simp [lookupKV]
  | cons p rest ih =>
    obtain ⟨k0, v0⟩ := p
    by_cases h : k0 = k
    · simp [lookupKV, h]
    · simp [lookupKV, h, ih, Ne.symm h]

lemma getD_mem {α : Type} (l : List α) (n : Nat) (d : α) (h : n < l.length) :
    l.getD n d ∈ l := by
  induction l generalizing n with
  | nil => simp at h
  | cons a t ih =>
    cases n with
    | zero => simp
    | succ n =>
      simp only [List.getD_cons_succ, List.mem_cons]
      exact Or.inr (ih n (by simpa using h))

/-! ### fetchLoop lemmas -/

lemma fetchLoop_ok_spec (env : AzureEnv) :
    ∀ (keys : List String) (n : Nat) (acc m : List (String × String)),
    (fetchLoop env keys n acc).1 = Except.ok m →
    (fetchLoop env keys n acc).2 = keys ∧
    (∀ k, k ∉ keys → lookupKV m k = lookupKV acc k) ∧
    (∀ k, k ∈ keys → ∃ i v, IsLastOcc keys k i ∧
      env.fetchResult (n + i) k = Except.ok v ∧ lookupKV m k = some v) := by
  intro keys
  induction keys with
  | nil =>
    intro n acc m h
    simp only [fetchLoop, Except.ok.injEq] at h
    subst h
    exact ⟨rfl, fun k _ => rfl, fun k hk => absurd hk (List.not_mem_nil k)⟩
  | cons k0 rest ih =>
    intro n acc m h
    cases hf : env.fetchResult n k0 with
    | error e => simp [fetchLoop, get_secret, hf] at h
    | ok v =>
      have h' : (fetchLoop env rest (n + 1) (insertKV acc k0 v)).1 = Except.ok m := by
        simpa [fetchLoop, get_secret, hf] using h
      obtain ⟨htr, hnot, hmem⟩ := ih (n + 1) (insertKV acc k0 v) m h'
      refine ⟨by simp [fetchLoop, get_secret, hf, htr], ?_, ?_⟩
      · intro k hk
        have hne : k ≠ k0 := fun hh => hk (hh ▸ List.mem_cons_self k0 rest)
        have hnr : k ∉ rest := fun hh => hk (List.mem_cons_of_mem k0 hh)
        rw [hnot k hnr, lookupKV_insertKV_ne acc k0 v k hne]
      · intro k hk
        by_cases hkr : k ∈ rest
        · obtain ⟨i, v', hlast, hfv, hlk⟩ := hmem k hkr
          obtain ⟨hi, hget, hafter⟩ := hlast
          refine ⟨i + 1, v', ⟨by simpa using Nat.succ_lt_succ hi, by simpa using hget, ?_⟩,
            ?_, hlk⟩
          · intro j hj1 hj2
            cases j with
            | zero => omega
            | succ j' =>
              have := hafter j' (by omega) (by simp at hj2; omega)
              simpa using this
          · rw [show n + (i + 1) = n + 1 + i by omega]
            exact hfv
        · have hk0 : k = k0 := by
            rcases List.mem_cons.mp hk with hh | hh
            · exact hh
            · exact absurd hh hkr
          subst hk0
          refine ⟨0, v, ⟨by simp, by simp, ?_⟩, by simpa using hf, ?_⟩
          · intro j hj1 hj2
            cases j with
            | zero => omega
            | succ j' =>
              have hjr : j' < rest.length := by simp at hj2; omega
              intro hcon
              rw [List.getD_cons_succ] at hcon
              have hm := getD_mem rest j' "" hjr
              rw [hcon] at hm
              exact hkr hm
          · rw [hnot k hkr, lookupKV_insertKV_self]

lemma fetchLoop_keys (env : AzureEnv) :
    ∀ (keys : List String) (n : Nat) (acc m : List (String × String)),
    (fetchLoop env keys n acc).1 = Except.ok m →
    (∀ k, k ∈ m.map Prod.fst ↔ k ∈ keys ∨ k ∈ acc.map Prod.fst) ∧
    ((acc.map Prod.fst).Nodup → (m.map Prod.fst).Nodup) := by
  intro keys
  induction keys with
  | nil =>
    intro n acc m h
    simp only [fetchLoop, Except.ok.injEq] at h
    subst h
    exact ⟨fun k => by simp, fun h => h⟩
  | cons k0 rest ih =>
    intro n acc m h
    cases hf : env.fetchResult n k0 with
    | error e => simp [fetchLoop, get_secret, hf] at h
    | ok v =>
      have h' : (fetchLoop env rest (n + 1) (insertKV acc k0 v)).1 = Except.ok m := by
        simpa [fetchLoop, get_secret, hf] using h
      obtain ⟨hmem, hnd⟩ := ih (n + 1) (insertKV acc k0 v) m h'
      constructor
      · intro k
        rw [hmem k, mem_keys_insertKV]
        simp only [List.mem_cons]
        tauto
      · intro hacc
        exact hnd (nodup_keys_insertKV acc k0 v hacc)

lemma fetchLoop_total (env : AzureEnv) :
    ∀ (keys : List String) (n : Nat) (acc : List (String × String)),
    (∀ i, i < keys.length → (env.fetchResult (n + i) (keys.getD i "")).isOk = true) →
    ∃ m, (fetchLoop env keys n acc).1 = Except.ok m := by
  intro keys
  induction keys with
  | nil => intro n acc _; exact ⟨acc, rfl⟩
  | cons k0 rest ih =>
    intro n acc h
    have h0 := h 0 (by simp)
    cases hf : env.fetchResult n k0 with
    | error e => simp [List.getD_cons_zero, hf, Except.isOk, Except.toBool] at h0
    | ok v =>
      obtain ⟨m, hm⟩ := ih (n + 1) (insertKV acc k0 v) (by
        intro i hi
        have := h (i + 1) (by simpa using Nat.succ_lt_succ hi)
        rw [show n + (i + 1) = n + 1 + i by omega] at this
        simpa using this)
      exact ⟨m, by simpa [fetchLoop, get_secret, hf] using hm⟩

lemma fetchLoop_err_any (env : AzureEnv) :
    ∀ (keys : List String) (n : Nat) (acc : List (String × String)),
    (∃ i, i < keys.length ∧ (env.fetchResult (n + i) (keys.getD i "")).isOk = false) →
    ∃ e, (fetchLoop env keys n acc).1 = Except.error e := by
  intro keys
  induction keys with
  | nil => intro n acc h; obtain ⟨i, hi, _⟩ := h; simp at hi
  | cons k0 rest ih =>
    intro n acc h
    obtain ⟨i, hi, hbad⟩ := h
    cases hf : env.fetchResult n k0 with
    | error e =>
      exact ⟨VError.context "Unable to retrieve value" e, by simp [fetchLoop, get_secret, hf]⟩
    | ok v =>
      cases i with
      | zero =>
        rw [show n + 0 = n from rfl, show (k0 :: rest).getD 0 "" = k0 from rfl, hf] at hbad
        simp [Except.isOk, Except.toBool] at hbad
      | succ i' =>
        obtain ⟨e, he⟩ := ih (n + 1) (insertKV acc k0 v)
          ⟨i', by simpa using hi, by
            rw [show n + 1 + i' = n + (i' + 1) by omega]
            simpa using hbad⟩
        exact ⟨e, by simpa [fetchLoop, get_secret, hf] using he⟩

lemma fetchLoop_err_at (env : AzureEnv) :
    ∀ (keys : List String) (n : Nat) (acc : List (String × String)) (i : Nat),
    i < keys.length →
    (∀ j, j < i → (env.fetchResult (n + j) (keys.getD j "")).isOk = true) →
    (env.fetchResult (n + i) (keys.getD i "")).isOk = false →
    ∃ c, env.fetchResult (n + i) (keys.getD i "") = Except.error c ∧
      fetchLoop env keys n acc =
        (Except.error (VError.context "Unable to retrieve value" c), keys.take (i + 1)) := by
  intro keys
  induction keys with
  | nil => intro n acc i hi _ _; simp at hi
  | cons k0 rest ih =>
    intro n acc i hi hpre hbad
    cases i with
    | zero =>
      rw [show n + 0 = n from rfl, show (k0 :: rest).getD 0 "" = k0 from rfl] at hbad
      cases hf : env.fetchResult n k0 with
      | error c =>
        refine ⟨c, by simpa using hf, ?_⟩
        simp [fetchLoop, get_secret, hf, List.take]
      | ok v => rw [hf] at hbad; simp [Except.isOk, Except.toBool] at hbad
    | succ i' =>
      have h0 := hpre 0 (Nat.succ_pos i')
      cases hf : env.fetchResult n k0 with
      | error e =>
        rw [show n + 0 = n from rfl, show (k0 :: rest).getD 0 "" = k0 from rfl, hf] at h0
        simp [Except.isOk, Except.toBool] at h0
      | ok v =>
        obtain ⟨c, hc, hl⟩ := ih (n + 1) (insertKV acc k0 v) i'
          (by simpa using hi)
          (by
            intro j hj
            have := hpre (j + 1) (Nat.succ_lt_succ hj)
            rw [show n + (j + 1) = n + 1 + j by omega] at this
            simpa using this)
          (by
            rw [show n + 1 + i' = n + (i' + 1) by omega]
            simpa using hbad)
        refine ⟨c, ?_, ?_⟩
        · rw [show n + (i' + 1) = n + 1 + i' by omega]
          simpa using hc
        · simp only [fetchLoop, get_secret, hf, List.take]
          rw [hl]

/-! ### Vault.new unfolding lemmas -/

lemma new_ok_intro (env : AzureEnv) (url : String) (db_keys : List String)
    (m : List (String × String))
    (hc : env.credResult = Except.ok ()) (hcl : env.clientResult url = Except.ok ())
    (hm : (fetchLoop env db_keys 0 []).1 = Except.ok m) :
    Vault.new env url db_keys = Except.ok (Vault.mk m) := by
  simp [Vault.new, hc, hcl, hm]

lemma new_err_intro (env : AzureEnv) (url : String) (db_keys : List String)
    (e : VError)
    (hc : env.credResult = Except.ok ()) (hcl : env.clientResult url = Except.ok ())
    (hm : (fetchLoop env db_keys 0 []).1 = Except.error e) :
    Vault.new env url db_keys = Except.error e := by
  simp [Vault.new, hc, hcl, hm]

lemma new_ok_elim (env : AzureEnv) (url : String) (db_keys : List String)
    (vault : Vault) (h : Vault.new env url db_keys = Except.ok vault) :
    env.credResult = Except.ok () ∧ env.clientResult url = Except.ok () ∧
    (fetchLoop env db_keys 0 []).1 = Except.ok vault.secrets := by
  unfold Vault.new at h
  cases hc : env.credResult with
  | error e => rw [hc] at h; simp at h
  | ok u =>
    cases u
    rw [hc] at h
    cases hcl : env.clientResult url with
    | error e => rw [hcl] at h; simp at h
    | ok u' =>
      cases u'
      rw [hcl] at h
      cases hm : (fetchLoop env db_keys 0 []).1 with
      | error e => rw [hm] at h; simp at h
      | ok m =>
        rw [hm] at h
        simp only [Except.ok.injEq] at h
        exact ⟨rfl, rfl, by rw [← h]⟩

lemma newTrace_eq (env : AzureEnv) (url : String) (db_keys : List String)
    (hc : env.credResult = Except.ok ()) (hcl : env.clientResult url = Except.ok ()) :
    Vault.newTrace env url db_keys = (fetchLoop env db_keys 0 []).2 := by
  simp [Vault.newTrace, hc, hcl]

/-! ### listContains lemmas -/

lemma isPrefixOf_self_append (l b : List Char) : l.isPrefixOf (l ++ b) = true := by
  induction l with
  | nil => simp [List.isPrefixOf]
  | cons c cs ih => simp [List.isPrefixOf, ih]

lemma listContains_mid (sub a b : List Char) :
    listContains sub (a ++ (sub ++ b)) = true := by
  induction a with
  | nil =>
    simp only [List.nil_append]
    cases hs : sub ++ b with
    | nil =>
      have : sub = [] := by
        cases sub with
        | nil => rfl
        | cons c cs => simp at hs
      simp [this, listContains]
    | cons c cs =>
      rw [listContains, ← hs, isPrefixOf_self_append]
      simp
  | cons c cs ih =>
    simp only [List.cons_append, listContains, List.append_eq, ih, Bool.or_true]

lemma data_missingKeyMsg (key : String) :
    (missingKeyMsg key).data =
      ("Required key " ++ squote).data ++ (key.data ++ (squote ++ " not found").data) := by
  simp [missingKeyMsg, String.data_append, List.append_assoc]

lemma key_in_missingKeyMsg (key : String) :
    listContains key.data (missingKeyMsg key).data = true := by
  rw [data_missingKeyMsg, String.data_append]
  exact listContains_mid key.data ("Required key ".data ++ squote.data)
    ((squote ++ " not found").data)

/-! ### Concrete environments used by the witnesses -/

/-- Environment where everything succeeds; the `n`-th fetch of `k`
returns `k ++ repr n`, so refetching a key gives a fresh value. -/
def envA : AzureEnv :=
  ⟨Except.ok (), fun _ => Except.ok (), fun n k => Except.ok (k ++ Nat.repr n)⟩

/-- Environment where only the key `bad` fails to fetch. -/
def envB : AzureEnv :=
  ⟨Except.ok (), fun _ => Except.ok (),
    fun _ k => if k = "bad" then Except.error "boom" else Except.ok k⟩

/-- Environment where credential acquisition fails. -/
def envC : AzureEnv :=
  ⟨Except.error "nocred", fun _ => Except.ok (), fun _ k => Except.ok k⟩

/-- Environment where client construction fails. -/
def envD : AzureEnv :=
  ⟨Except.ok (), fun _ => Except.error "badurl", fun _ k => Except.ok k⟩

/-- Environment where every fetch fails with an opaque client error. -/
def envE : AzureEnv :=
  ⟨Except.ok (), fun _ => Except.ok (), fun _ _ => Except.error "boom"⟩

/-! ### Claim theorems -/

/-- C1: when credentials, client and every per-key fetch succeed,
`Vault::new` succeeds and `get_required` returns, for every input key,
exactly the value of the last fetch of that key (in input order). -/
theorem vault_new_ok_lookup_last (env : AzureEnv) (url : String) (keys : List String)
    (hc : env.credResult = Except.ok ()) (hcl : env.clientResult url = Except.ok ())
    (hfetch : ∀ i, i < keys.length → (env.fetchResult i (keys.getD i "")).isOk = true) :
    ∃ vault, Vault.new env url keys = Except.ok vault ∧
      ∀ k, k ∈ keys → ∃ i v, IsLastOcc keys k i ∧
        env.fetchResult i k = Except.ok v ∧ get_required vault k = Except.ok v := by
  obtain ⟨m, hm⟩ := fetchLoop_total env keys 0 [] (by simpa using hfetch)
  refine ⟨Vault.mk m, new_ok_intro env url keys m hc hcl hm, ?_⟩
  obtain ⟨-, -, hmem⟩ := fetchLoop_ok_spec env keys 0 [] m hm
  intro k hk
  obtain ⟨i, v, hlast, hfv, hlk⟩ := hmem k hk
  rw [Nat.zero_add] at hfv
  exact ⟨i, v, hlast, hfv, by simp [get_required, hlk]⟩

theorem vault_new_ok_lookup_last_witness :
    (envA.credResult = Except.ok ()) ∧ (envA.clientResult "u" = Except.ok ()) ∧
    (∀ i, i < (["a", "b", "a"] : List String).length →
      (envA.fetchResult i ((["a", "b", "a"] : List String).getD i "")).isOk = true) ∧
    (∃ vault, Vault.new envA "u" ["a", "b", "a"] = Except.ok vault ∧
      ∀ k, k ∈ (["a", "b", "a"] : List String) → ∃ i v,
        IsLastOcc ["a", "b", "a"] k i ∧
        envA.fetchResult i k = Except.ok v ∧ get_required vault k = Except.ok v) :=
  ⟨rfl, rfl, by decide,
    vault_new_ok_lookup_last envA "u" ["a", "b", "a"] rfl rfl (by decide)⟩

/-- C2: construction is all-or-nothing: if credential acquisition,
client construction, or any fetch fails, `Vault::new` returns an error
(no partial store is produced). -/
theorem vault_new_all_or_nothing (env : AzureEnv) (url : String) (keys : List String)
    (h : env.credResult.isOk = false ∨ (env.clientResult url).isOk = false ∨
      ∃ i, i < keys.length ∧ (env.fetchResult i (keys.getD i "")).isOk = false) :
    ∃ e, Vault.new env url keys = Except.error e := by
  cases hc : env.credResult with
  | error e =>
    exact ⟨VError.context "Failed to create credentials" e, by simp [Vault.new, hc]⟩
  | ok u =>
    cases u
    cases hcl : env.clientResult url with
    | error e =>
      exact ⟨VError.context "Failed to create a SecretClient instance" e,
        by simp [Vault.new, hc, hcl]⟩
    | ok u' =>
      cases u'
      rcases h with h | h | h
      · rw [hc] at h; simp [Except.isOk, Except.toBool] at h
      · rw [hcl] at h; simp [Except.isOk, Except.toBool] at h
      · obtain ⟨e, he⟩ := fetchLoop_err_any env keys 0 [] (by simpa using h)
        exact ⟨e, new_err_intro env url keys e hc hcl he⟩

theorem vault_new_all_or_nothing_witness :
    (envB.credResult.isOk = false ∨ (envB.clientResult "u").isOk = false ∨
      ∃ i, i < (["ok1", "bad", "x"] : List String).length ∧
        (envB.fetchResult i ((["ok1", "bad", "x"] : List String).getD i "")).isOk = false) ∧
    (∃ e, Vault.new envB "u" ["ok1", "bad", "x"] = Except.error e) :=
  ⟨by decide, vault_new_all_or_nothing envB "u" ["ok1", "bad", "x"] (by decide)⟩

/-- C3: `get_required` fails on any key absent from the mapping with a
missing-key error whose message contains that exact key, and returns
the associated value for any present key. -/
theorem get_required_spec (v : Vault) (key : String) :
    (lookupKV v.secrets key = none →
      get_required v key = Except.error (VError.message (missingKeyMsg key)) ∧
      listContains key.data (missingKeyMsg key).data = true) ∧
    (∀ val, lookupKV v.secrets key = some val →
      get_required v key = Except.ok val) := by
  constructor
  · intro h
    exact ⟨by simp [get_required, h], key_in_missingKeyMsg key⟩
  · intro val h
    simp [get_required, h]

theorem get_required_spec_witness :
    get_required (Vault.mk [("a", "1")]) "b" =
      Except.error (VError.message (missingKeyMsg "b")) ∧
    get_required (Vault.mk [("a", "1")]) "a" = Except.ok "1" :=
  ⟨((get_required_spec (Vault.mk [("a", "1")]) "b").1 (by decide)).1,
   (get_required_spec (Vault.mk [("a", "1")]) "a").2 "1" (by decide)⟩

/-- C4 counterexample: a failing fetch of the key `zzkey` yields an
error whose full rendered message (`Unable to retrieve value: boom`)
does not contain the key name anywhere, so the error returned by
`Vault::new` does not carry the offending key. -/
theorem fetch_error_lacks_key_name :
    Vault.new envE "u" ["zzkey"] =
      Except.error (VError.context "Unable to retrieve value" "boom") ∧
    listContains "zzkey".data
      (VError.render (VError.context "Unable to retrieve value" "boom")).data = false :=
  ⟨rfl, by decide⟩

/-- C4 amended: when the first failing fetch during construction fails
with client error `c`, `Vault::new` returns exactly
`VError.context "Unable to retrieve value" c`: a fixed context message
over the opaque client error, which names the offending key only if
the client error itself happens to. -/
theorem fetch_error_is_generic_context (env : AzureEnv) (url : String)
    (keys : List String) (i : Nat)
    (hc : env.credResult = Except.ok ()) (hcl : env.clientResult url = Except.ok ())
    (hi : i < keys.length)
    (hpre : ∀ j, j < i → (env.fetchResult j (keys.getD j "")).isOk = true)
    (hbad : (env.fetchResult i (keys.getD i "")).isOk = false) :
    ∃ c, env.fetchResult i (keys.getD i "") = Except.error c ∧
      Vault.new env url keys =
        Except.error (VError.context "Unable to retrieve value" c) := by
  obtain ⟨c, hcc, hl⟩ :=
    fetchLoop_err_at env keys 0 [] i hi (by simpa using hpre) (by simpa using hbad)
  refine ⟨c, by simpa using hcc, ?_⟩
  exact new_err_intro env url keys _ hc hcl (by rw [hl])

theorem fetch_error_is_generic_context_witness :
    (envE.credResult = Except.ok ()) ∧ (envE.clientResult "u" = Except.ok ()) ∧
    (0 < (["zzkey"] : List String).length) ∧
    (∃ c, envE.fetchResult 0 ((["zzkey"] : List String).getD 0 "") = Except.error c ∧
      Vault.new envE "u" ["zzkey"] =
        Except.error (VError.context "Unable to retrieve value" c)) :=
  ⟨rfl, rfl, by decide,
    fetch_error_is_generic_context envE "u" ["zzkey"] 0 rfl rfl (by decide)
      (by decide) (by decide)⟩

lemma count_eq_one_of_nodup_mem (l : List String) (k : String)
    (hnd : l.Nodup) (hm : k ∈ l) : l.count k = 1 := by
  induction l with
  | nil => simp at hm
  | cons a t ih =>
    rw [List.nodup_cons] at hnd
    rcases List.mem_cons.mp hm with h | h
    · subst h
      have : t.count k = 0 := by
        rw [List.count_eq_zero]
        exact hnd.1
      simp [List.count_cons, this]
    · have hne : a ≠ k := fun hh => hnd.1 (hh ▸ h)
      simp [List.count_cons, hne, ih hnd.2 h]

/-- C5: a key occurring more than once in the input list has exactly
one entry in the resulting mapping, holding the value of the last
fetch of that key in input order. -/
theorem duplicate_keys_last_write_wins (env : AzureEnv) (url : String)
    (keys : List String) (k : String) (vault : Vault)
    (hdup : 1 < keys.count k)
    (hok : Vault.new env url keys = Except.ok vault) :
    (vault.secrets.map Prod.fst).count k = 1 ∧
    ∃ i v, IsLastOcc keys k i ∧ env.fetchResult i k = Except.ok v ∧
      get_required vault k = Except.ok v := by
  obtain ⟨hc, hcl, hm⟩ := new_ok_elim env url keys vault hok
  have hkmem : k ∈ keys := by
    rw [← List.count_pos_iff]
    omega
  obtain ⟨hkeys, hnd⟩ := fetchLoop_keys env keys 0 [] vault.secrets hm
  have hndk : (vault.secrets.map Prod.fst).Nodup := hnd (by simp)
  have hmemk : k ∈ vault.secrets.map Prod.fst := (hkeys k).mpr (Or.inl hkmem)
  refine ⟨count_eq_one_of_nodup_mem _ k hndk hmemk, ?_⟩
  obtain ⟨-, -, hval⟩ := fetchLoop_ok_spec env keys 0 [] vault.secrets hm
  obtain ⟨i, v, hlast, hfv, hlk⟩ := hval k hkmem
  rw [Nat.zero_add] at hfv
  exact ⟨i, v, hlast, hfv, by simp [get_required, hlk]⟩

theorem duplicate_keys_last_write_wins_witness :
    (1 < (["a", "b", "a"] : List String).count "a") ∧
    (Vault.new envA "u" ["a", "b", "a"] =
      Except.ok (Vault.mk [("a", "a2"), ("b", "b1")])) ∧
    (((Vault.mk [("a", "a2"), ("b", "b1")]).secrets.map Prod.fst).count "a" = 1 ∧
      ∃ i v, IsLastOcc ["a", "b", "a"] "a" i ∧
        envA.fetchResult i "a" = Except.ok v ∧
        get_required (Vault.mk [("a", "a2"), ("b", "b1")]) "a" = Except.ok v) :=
  ⟨by decide, rfl,
    duplicate_keys_last_write_wins envA "u" ["a", "b", "a"] "a"
      (Vault.mk [("a", "a2"), ("b", "b1")]) (by decide) rfl⟩

/-- C6: on success, the domain of the store mapping is exactly the set
of distinct input keys, with no duplicate entries. -/
theorem store_domain_eq_input_keys (env : AzureEnv) (url : String)
    (keys : List String) (vault : Vault)
    (hok : Vault.new env url keys = Except.ok vault) :
    (∀ k, k ∈ vault.secrets.map Prod.fst ↔ k ∈ keys) ∧
    (vault.secrets.map Prod.fst).Nodup := by
  obtain ⟨hc, hcl, hm⟩ := new_ok_elim env url keys vault hok
  obtain ⟨hkeys, hnd⟩ := fetchLoop_keys env keys 0 [] vault.secrets hm
  exact ⟨fun k => by rw [hkeys k]; simp, hnd (by simp)⟩

theorem store_domain_eq_input_keys_witness :
    (Vault.new envA "u" ["a", "b", "a"] =
      Except.ok (Vault.mk [("a", "a2"), ("b", "b1")])) ∧
    ((∀ k, k ∈ (Vault.mk [("a", "a2"), ("b", "b1")]).secrets.map Prod.fst ↔
        k ∈ (["a", "b", "a"] : List String)) ∧
      ((Vault.mk [("a", "a2"), ("b", "b1")]).secrets.map Prod.fst).Nodup) :=
  ⟨rfl,
    store_domain_eq_input_keys envA "u" ["a", "b", "a"]
      (Vault.mk [("a", "a2"), ("b", "b1")]) rfl⟩

/-- C7: with the empty key list (and credentials and client in order)
`Vault::new` succeeds without issuing any fetch, the mapping is empty,
and every lookup fails with the missing-key error. -/
theorem empty_key_list (env : AzureEnv) (url : String)
    (hc : env.credResult = Except.ok ()) (hcl : env.clientResult url = Except.ok ()) :
    Vault.new env url [] = Except.ok (Vault.mk []) ∧
    Vault.newTrace env url [] = [] ∧
    ∀ k, get_required (Vault.mk []) k =
      Except.error (VError.message (missingKeyMsg k)) := by
  refine ⟨new_ok_intro env url [] [] hc hcl rfl, ?_, fun k => rfl⟩
  rw [newTrace_eq env url [] hc hcl]
  rfl

theorem empty_key_list_witness :
    (envA.credResult = Except.ok ()) ∧ (envA.clientResult "u" = Except.ok ()) ∧
    (Vault.new envA "u" [] = Except.ok (Vault.mk []) ∧
      Vault.newTrace envA "u" [] = [] ∧
      ∀ k, get_required (Vault.mk []) k =
        Except.error (VError.message (missingKeyMsg k))) :=
  ⟨rfl, rfl, empty_key_list envA "u" rfl rfl⟩

/-- C8: `get_required` never mutates the store: the state-passing
embedding of the shared-reference method returns the receiver
unchanged, for any single call and for any sequence of calls, whether
each lookup succeeds or fails. -/
theorem store_immutable (v : Vault) (k : String) (ks : List String) :
    (get_requiredS v k).2 = v ∧
    (get_requiredS v k).2.secrets = v.secrets ∧
    runLookups v ks = v := by
  refine ⟨rfl, rfl, ?_⟩
  induction ks with
  | nil => rfl
  | cons a t ih => exact ih

/-- C9: fetches are issued strictly sequentially in input-list order:
the trace of issued fetches is always the prefix of the key list
ending at the first failing key (the whole list when no fetch fails),
so no fetch is ever issued for a key after a failure. -/
theorem fetches_sequential_prefix (env : AzureEnv) (url : String)
    (keys : List String) (i : Nat)
    (hc : env.credResult = Except.ok ()) (hcl : env.clientResult url = Except.ok ())
    (hpre : ∀ j, j < i → (env.fetchResult j (keys.getD j "")).isOk = true)
    (hstop : i = keys.length ∨
      (i < keys.length ∧ (env.fetchResult i (keys.getD i "")).isOk = false)) :
    Vault.newTrace env url keys = keys.take (i + 1) := by
  rw [newTrace_eq env url keys hc hcl]
  rcases hstop with h | ⟨hi, hbad⟩
  · subst h
    obtain ⟨m, hm⟩ := fetchLoop_total env keys 0 [] (by simpa using hpre)
    obtain ⟨htr, -, -⟩ := fetchLoop_ok_spec env keys 0 [] m hm
    rw [htr, List.take_of_length_le (by omega)]
  · obtain ⟨c, -, hl⟩ :=
      fetchLoop_err_at env keys 0 [] i hi (by simpa using hpre) (by simpa using hbad)
    rw [hl]

theorem fetches_sequential_prefix_witness :
    (envB.credResult = Except.ok ()) ∧ (envB.clientResult "u" = Except.ok ()) ∧
    (∀ j, j < 1 →
      (envB.fetchResult j ((["ok1", "bad", "x"] : List String).getD j "")).isOk = true) ∧
    ((1 : Nat) = (["ok1", "bad", "x"] : List String).length ∨
      (1 < (["ok1", "bad", "x"] : List String).length ∧
        (envB.fetchResult 1 ((["ok1", "bad", "x"] : List String).getD 1 "")).isOk = false)) ∧
    Vault.newTrace envB "u" ["ok1", "bad", "x"] =
      (["ok1", "bad", "x"] : List String).take 2 :=
  ⟨rfl, rfl, by decide, by decide,
    fetches_sequential_prefix envB "u" ["ok1", "bad", "x"] 1 rfl rfl
      (by decide) (by decide)⟩

/-- C10: even for the empty key list, `Vault::new` performs credential
acquisition and client construction, failing with the corresponding
stage error if either fails. -/
theorem empty_list_still_validates (env : AzureEnv) (url : String) :
    (∀ e, env.credResult = Except.error e →
      Vault.new env url [] =
        Except.error (VError.context "Failed to create credentials" e)) ∧
    (∀ e, env.credResult = Except.ok () → env.clientResult url = Except.error e →
      Vault.new env url [] =
        Except.error (VError.context "Failed to create a SecretClient instance" e)) := by
  constructor
  · intro e hc
    simp [Vault.new, hc]
  · intro e hc hcl
    simp [Vault.new, hc, hcl]

theorem empty_list_still_validates_witness :
    (envC.credResult = Except.error "nocred" ∧
      Vault.new envC "u" [] =
        Except.error (VError.context "Failed to create credentials" "nocred")) ∧
    (envD.credResult = Except.ok () ∧ envD.clientResult "u" = Except.error "badurl" ∧
      Vault.new envD "u" [] =
        Except.error (VError.context "Failed to create a SecretClient instance" "badurl")) :=
  ⟨⟨rfl, (empty_list_still_validates envC "u").1 "nocred" rfl⟩,
   ⟨rfl, rfl, (empty_list_still_validates envD "u").2 "badurl" rfl rfl⟩⟩
